import Mathlib

/-!
Verification of the geometry-processing and multi-source-aggregation core of
the mcp-nvv server (coordinate validation, Douglas-Peucker WKT simplification,
bounding-box workaround utilities, and the fan-out search/extent handlers).

JavaScript IEEE-754 doubles are modelled as exact rationals (ℚ), the usual
idealisation of this code's arithmetic; strings of coordinate text are
modelled by the lists of coordinate pairs the source parses out of them.
-/

namespace Nvv

/-- A 2D coordinate pair `[x, y]`, as produced by `parseCoordRing`. -/
abbrev Point := ℚ × ℚ

/-- `DEFAULT_TOLERANCE = 0.001` from geometry-utils. -/
def DEFAULT_TOLERANCE : ℚ := 1 / 1000

/-- Squared perpendicular distance from `point` to the line through `lineStart`
and `lineEnd`, translated from `perpendicularDistance`.  The source returns the
distance itself (two square roots); to stay inside ℚ we carry its square.  All
the source ever does with these distances is compare them with each other
(within one call the baseline, hence the denominator, is shared) and with the
tolerance, and on non-negatives `a < b ↔ a² < b²`, so carrying squares is an
exact translation for non-negative tolerances. -/
def perpendicularDistanceSq (point lineStart lineEnd : Point) : ℚ :=
  let x := point.1
  let y := point.2
  let x1 := lineStart.1
  let y1 := lineStart.2
  let x2 := lineEnd.1
  let y2 := lineEnd.2
  let lineLengthSq := (x2 - x1) ^ 2 + (y2 - y1) ^ 2
  if lineLengthSq = 0 then (x - x1) ^ 2 + (y - y1) ^ 2
  else ((y2 - y1) * x - (x2 - x1) * y + x2 * y1 - y2 * x1) ^ 2 / lineLengthSq

/-- The scanning loop of `simplifyPath` (`for (let i = 1; ...)`) over the
interior points: keeps the squared distance and index of the first point that
strictly exceeds every earlier one, starting from `(maxDist, maxIndex) = (0, 0)`. -/
def farthestAux (first last : Point) : List Point → Nat → ℚ × Nat → ℚ × Nat
  | [], _, best => best
  | p :: rest, i, best =>
      let dSq := perpendicularDistanceSq p first last
      farthestAux first last rest (i + 1) (if best.1 < dSq then (dSq, i) else best)

/-- The `maxDist`/`maxIndex` computation of `simplifyPath`: scan the interior
points `coords[1..length-2]` against the first/last baseline. -/
def findFarthest (coords : List Point) : ℚ × Nat :=
  farthestAux coords.headI (coords.getLastD (0, 0)) ((coords.drop 1).dropLast) 1 (0, 0)

/-- `simplifyPath` (Douglas-Peucker), with an explicit fuel argument to make
the recursion structural; the wrapper `simplifyPath` below instantiates the
fuel with the list length, which the termination analysis shows is never
exhausted.  `left.slice(0, -1)` is `dropLast`, `coords.slice(0, maxIndex + 1)`
is `take (maxIndex + 1)` and `coords.slice(maxIndex)` is `drop maxIndex`. -/
def simplifyPathFuel : Nat → List Point → ℚ → List Point
  | 0, coords, _ => coords
  | fuel + 1, coords, tolerance =>
    if coords.length ≤ 2 then coords
    else
      let first := coords.headI
      let last := coords.getLastD (0, 0)
      let best := findFarthest coords
      if tolerance ^ 2 < best.1 then
        (simplifyPathFuel fuel (coords.take (best.2 + 1)) tolerance).dropLast
          ++ simplifyPathFuel fuel (coords.drop best.2) tolerance
      else [first, last]

/-- `simplifyPath(coords, tolerance)` from geometry-utils. -/
def simplifyPath (coords : List Point) (tolerance : ℚ) : List Point :=
  simplifyPathFuel coords.length coords tolerance

/-- The body of the regex-replace callback of `simplifyWkt`, acting on the
parsed coordinate list of one innermost parenthesised group (one ring):
rings of fewer than 4 parsed points, and rings whose simplification falls
below 4 points, are returned unmodified; otherwise the simplified ring is
re-closed by appending the first point when first and last differ. -/
def simplifyRing (coords : List Point) (tolerance : ℚ) : List Point :=
  if coords.length < 4 then coords
  else
    let simplified := simplifyPath coords tolerance
    if simplified.length < 4 then coords
    else
      let first := simplified.headI
      let last := simplified.getLastD (0, 0)
      if first.1 ≠ last.1 ∨ first.2 ≠ last.2 then simplified ++ [first]
      else simplified

/- ### Structural lemmas about the scan -/

theorem farthestAux_spec (a b : Point) :
    ∀ (l : List Point) (i : Nat) (best : ℚ × Nat),
      farthestAux a b l i best = best ∨
        (best.1 < (farthestAux a b l i best).1 ∧
          i ≤ (farthestAux a b l i best).2 ∧
          (farthestAux a b l i best).2 < i + l.length) := by
  intro l
  induction l with
  | nil => intro i best; exact Or.inl rfl
  | cons p rest ih =>
      intro i best
      simp only [farthestAux]
      by_cases h : best.1 < perpendicularDistanceSq p a b
      · simp only [h, if_pos]
        rcases ih (i + 1) (perpendicularDistanceSq p a b, i) with heq | ⟨h1, h2, h3⟩
        · rw [heq]
          refine Or.inr ⟨h, ?_, ?_⟩ <;> simp
        · refine Or.inr ⟨lt_trans h h1, by omega, by simpa using by omega⟩
      · simp only [h, if_neg, not_false_iff]
        rcases ih (i + 1) best with heq | ⟨h1, h2, h3⟩
        · exact Or.inl heq
        · refine Or.inr ⟨h1, by omega, ?_⟩
          simp only [List.length_cons]
          omega

theorem findFarthest_bounds (coords : List Point)
    (h : 0 < (findFarthest coords).1) :
    1 ≤ (findFarthest coords).2 ∧ (findFarthest coords).2 < 1 + (coords.length - 2) := by
  have hs := farthestAux_spec coords.headI (coords.getLastD (0, 0))
    ((coords.drop 1).dropLast) 1 (0, 0)
  rcases hs with heq | ⟨_, h2, h3⟩
  · rw [findFarthest] at h
    rw [heq] at h
    exact absurd h (by norm_num)
  · rw [findFarthest]
    refine ⟨h2, ?_⟩
    simpa [List.length_dropLast, List.length_drop] using h3

/- ### List helper lemmas -/

theorem head?_eq_some_headI {α : Type} [Inhabited α] (l : List α) (h : l ≠ []) :
    l.head? = some l.headI := by
  cases l with
  | nil => exact absurd rfl h
  | cons a l => rfl

theorem getLast?_eq_some_getLastD {α : Type} :
    ∀ (l : List α) (d : α), l ≠ [] → l.getLast? = some (l.getLastD d)
  | [], _, h => absurd rfl h
  | [a], _, _ => rfl
  | a :: b :: l, d, _ => by
      rw [List.getLast?_cons_cons]
      exact getLast?_eq_some_getLastD (b :: l) a (by simp)

theorem head?_take_succ {α : Type} (l : List α) (n : Nat) :
    (l.take (n + 1)).head? = l.head? := by
  cases l <;> simp

theorem head?_dropLast_of_two_le {α : Type} :
    ∀ (l : List α), 2 ≤ l.length → l.dropLast.head? = l.head?
  | [], h => by simp at h
  | [a], h => by simp at h
  | a :: b :: l, _ => by rw [List.dropLast_cons₂]; rfl

theorem getLast?_drop_of_lt {α : Type} (l : List α) :
    ∀ (k : Nat), k < l.length → (l.drop k).getLast? = l.getLast? := by
  induction l with
  | nil => intro k h; simp at h
  | cons a l ih =>
      intro k h
      cases k with
      | zero => simp
      | succ k =>
          have hk : k < l.length := by simpa using h
          have hne : l ≠ [] := by
            intro he
            rw [he] at hk
            simp at hk
          rw [List.drop_succ_cons, ih k hk]
          cases l with
          | nil => exact absurd rfl hne
          | cons b l' => rw [List.getLast?_cons_cons]

/- ### Structural facts about the Douglas-Peucker recursion -/

/-- The simplified path never has more points than the input path. -/
theorem simplifyPathFuel_length_le :
    ∀ (fuel : Nat) (coords : List Point) (tolerance : ℚ),
      (simplifyPathFuel fuel coords tolerance).length ≤ coords.length := by
  intro fuel
  induction fuel with
  | zero => intro coords tol; exact le_refl _
  | succ fuel ih =>
      intro coords tol
      rw [simplifyPathFuel]
      by_cases h2 : coords.length ≤ 2
      · simp [h2]
      · simp only [h2, if_false]
        by_cases hgt : tol ^ 2 < (findFarthest coords).1
        · simp only [hgt, if_true]
          have hb := findFarthest_bounds coords (lt_of_le_of_lt (sq_nonneg tol) hgt)
          have hL := ih (coords.take ((findFarthest coords).2 + 1)) tol
          have hR := ih (coords.drop (findFarthest coords).2) tol
          rw [List.length_take] at hL
          rw [List.length_drop] at hR
          rw [List.length_append, List.length_dropLast]
          omega
        · simp only [hgt, if_false]
          simp only [List.length_cons, List.length_nil]
          omega

/-- The simplified path keeps the input's first point, keeps its last point,
and has at least 2 points, whenever the input has at least 2 points. -/
theorem simplifyPathFuel_head_last :
    ∀ (fuel : Nat) (coords : List Point) (tolerance : ℚ), 2 ≤ coords.length →
      (simplifyPathFuel fuel coords tolerance).head? = coords.head? ∧
      (simplifyPathFuel fuel coords tolerance).getLast? = coords.getLast? ∧
      2 ≤ (simplifyPathFuel fuel coords tolerance).length := by
  intro fuel
  induction fuel with
  | zero => intro coords tol h; exact ⟨rfl, rfl, h⟩
  | succ fuel ih =>
      intro coords tol h
      have hne : coords ≠ [] := by
        intro he
        rw [he] at h
        simp at h
      rw [simplifyPathFuel]
      by_cases h2 : coords.length ≤ 2
      · rw [if_pos h2]
        exact ⟨rfl, rfl, h⟩
      · simp only [h2, if_false]
        by_cases hgt : tol ^ 2 < (findFarthest coords).1
        · simp only [hgt, if_true]
          have hb := findFarthest_bounds coords (lt_of_le_of_lt (sq_nonneg tol) hgt)
          have hkl : (findFarthest coords).2 + 1 ≤ coords.length := by omega
          have htl : (coords.take ((findFarthest coords).2 + 1)).length =
              (findFarthest coords).2 + 1 := by
            rw [List.length_take]
            omega
          have hdl : (coords.drop (findFarthest coords).2).length =
              coords.length - (findFarthest coords).2 := List.length_drop _ _
          have ihL := ih (coords.take ((findFarthest coords).2 + 1)) tol (by omega)
          have ihR := ih (coords.drop (findFarthest coords).2) tol (by omega)
          have hLne : (simplifyPathFuel fuel
              (coords.take ((findFarthest coords).2 + 1)) tol).dropLast ≠ [] := by
            have := ihL.2.2
            intro he
            have : (simplifyPathFuel fuel
                (coords.take ((findFarthest coords).2 + 1)) tol).dropLast.length = 0 := by
              rw [he]; rfl
            rw [List.length_dropLast] at this
            omega
          have hRne : simplifyPathFuel fuel (coords.drop (findFarthest coords).2) tol ≠ [] := by
            have := ihR.2.2
            intro he
            rw [he] at this
            simp at this
          refine ⟨?_, ?_, ?_⟩
          · rw [List.head?_append_of_ne_nil _ hLne,
              head?_dropLast_of_two_le _ ihL.2.2, ihL.1, head?_take_succ]
          · rw [List.getLast?_append_of_ne_nil _ hRne, ihR.2.1,
              getLast?_drop_of_lt _ _ (by omega)]
          · rw [List.length_append, List.length_dropLast]
            have := ihL.2.2
            have := ihR.2.2
            omega
        · simp only [hgt, if_false]
          refine ⟨?_, ?_, ?_⟩
          · rw [head?_eq_some_headI coords hne]; rfl
          · rw [getLast?_eq_some_getLastD coords (0, 0) hne]
            rfl
          · simp
theorem simplifyPath_length_le (coords : List Point) (tolerance : ℚ) :
    (simplifyPath coords tolerance).length ≤ coords.length :=
  simplifyPathFuel_length_le _ _ _

theorem simplifyPath_head_last (coords : List Point) (tolerance : ℚ)
    (h : 2 ≤ coords.length) :
    (simplifyPath coords tolerance).head? = coords.head? ∧
    (simplifyPath coords tolerance).getLast? = coords.getLast? ∧
    2 ≤ (simplifyPath coords tolerance).length :=
  simplifyPathFuel_head_last _ _ _ h

/-- For a closed input ring the re-closing append of `simplifyRing` cannot
fire: the result is the input itself (one of the minimum-point guards) or the
simplified path unchanged. -/
theorem simplifyRing_of_closed (coords : List Point) (tolerance : ℚ)
    (hcl : coords.head? = coords.getLast?) :
    simplifyRing coords tolerance = coords ∨
      (4 ≤ coords.length ∧
        simplifyRing coords tolerance = simplifyPath coords tolerance) := by
  simp only [simplifyRing]
  by_cases h4 : coords.length < 4
  · rw [if_pos h4]
    exact Or.inl rfl
  · rw [if_neg h4]
    by_cases hs : (simplifyPath coords tolerance).length < 4
    · rw [if_pos hs]
      exact Or.inl rfl
    · rw [if_neg hs]
      have h2 : 2 ≤ coords.length := by omega
      obtain ⟨hh, hl, _⟩ := simplifyPath_head_last coords tolerance h2
      have hne : simplifyPath coords tolerance ≠ [] := by
        intro he
        rw [he] at hs
        simp at hs
      have hsome : some ((simplifyPath coords tolerance).headI) =
          some ((simplifyPath coords tolerance).getLastD (0, 0)) := by
        rw [← head?_eq_some_headI _ hne, ← getLast?_eq_some_getLastD _ (0, 0) hne,
          hh, hl, hcl]
      have heq : (simplifyPath coords tolerance).headI =
          (simplifyPath coords tolerance).getLastD (0, 0) := Option.some.inj hsome
      rw [if_neg]
      · exact Or.inr ⟨by omega, rfl⟩
      · rw [heq]
        simp

/- ### Claims C2, C3, C6, C10 -/

/-- C2, counterexample: the claim as stated fails on a ring that is not
closed.  The open square `(0 0, 0 1, 1 1, 1 0)` with tolerance `0` (≥ 0) is
fully retained by Douglas-Peucker and then re-closed by appending the first
point, so the emitted ring has 5 coordinate pairs while the parsed ring has
only 4. -/
theorem simplifyRing_count_counterexample :
    (0 : ℚ) ≤ 0 ∧
      ¬ ((simplifyRing [((0 : ℚ), (0 : ℚ)), (0, 1), (1, 1), (1, 0)] 0).length ≤
          ([((0 : ℚ), (0 : ℚ)), (0, 1), (1, 1), (1, 0)] : List Point).length) := by
  constructor
  · exact le_refl 0
  · norm_num [simplifyRing, simplifyPath, simplifyPathFuel, findFarthest, farthestAux,
      perpendicularDistanceSq]

/-- C2 (amended): for every ring parsed out of the input WKT that is closed
(first coordinate pair equal to the last) and every tolerance t ≥ 0, the ring
emitted by the simplification has at most as many coordinate pairs as the
input ring. -/
theorem simplifyRing_count_le_of_closed (coords : List Point) (tolerance : ℚ)
    (ht : 0 ≤ tolerance) (hcl : coords.head? = coords.getLast?) :
    (simplifyRing coords tolerance).length ≤ coords.length := by
  rcases simplifyRing_of_closed coords tolerance hcl with he | ⟨_, he⟩
  · rw [he]
  · rw [he]
    exact simplifyPath_length_le _ _

/-- C2 witness: the amended theorem applied to a concrete closed 5-point
square ring with the default tolerance. -/
theorem simplifyRing_count_le_of_closed_witness :
    (simplifyRing [((0 : ℚ), (0 : ℚ)), (0, 1), (1, 1), (1, 0), (0, 0)]
        DEFAULT_TOLERANCE).length ≤
      ([((0 : ℚ), (0 : ℚ)), (0, 1), (1, 1), (1, 0), (0, 0)] : List Point).length :=
  simplifyRing_count_le_of_closed _ _ (by norm_num [DEFAULT_TOLERANCE]) rfl

/-- C3, counterexample: the claim as stated fails on a ring that is not
closed.  The 4-point unclosed collinear ring `(0 0, 1 0, 2 0, 3 0)` at
tolerance `1` simplifies to 2 points, so the minimum-point guard emits the
original ring unmodified — and that ring's first pair differs from its last. -/
theorem simplifyRing_closure_counterexample :
    ¬ ((simplifyRing [((0 : ℚ), (0 : ℚ)), (1, 0), (2, 0), (3, 0)] 1).head? =
        (simplifyRing [((0 : ℚ), (0 : ℚ)), (1, 0), (2, 0), (3, 0)] 1).getLast?) := by
  norm_num [simplifyRing, simplifyPath, simplifyPathFuel, findFarthest, farthestAux,
    perpendicularDistanceSq, Prod.ext_iff]

/-- C3 (amended): every ring emitted from a closed input ring is closed
(first coordinate pair equals last coordinate pair). -/
theorem simplifyRing_closed_of_closed (coords : List Point) (tolerance : ℚ)
    (hcl : coords.head? = coords.getLast?) :
    (simplifyRing coords tolerance).head? = (simplifyRing coords tolerance).getLast? := by
  rcases simplifyRing_of_closed coords tolerance hcl with he | ⟨h4, he⟩
  · rw [he]
    exact hcl
  · rw [he]
    obtain ⟨hh, hl, _⟩ := simplifyPath_head_last coords tolerance (by omega)
    rw [hh, hl]
    exact hcl

/-- C3 witness: the amended theorem applied to a concrete closed triangle
ring with the default tolerance. -/
theorem simplifyRing_closed_of_closed_witness :
    (simplifyRing [((0 : ℚ), (0 : ℚ)), (0, 1), (1, 1), (0, 0)]
        DEFAULT_TOLERANCE).head? =
      (simplifyRing [((0 : ℚ), (0 : ℚ)), (0, 1), (1, 1), (0, 0)]
        DEFAULT_TOLERANCE).getLast? :=
  simplifyRing_closed_of_closed _ _ rfl

/-- C6: whenever Douglas-Peucker would leave a ring with fewer than 4 points,
`simplifyRing` emits the original ring unmodified; consequently a 4-point ring
always yields a ring of at least 4 points, whatever the tolerance. -/
theorem simplifyRing_min_points (coords : List Point) (tolerance : ℚ) :
    ((simplifyPath coords tolerance).length < 4 →
      simplifyRing coords tolerance = coords) ∧
    (coords.length = 4 → 4 ≤ (simplifyRing coords tolerance).length) := by
  constructor
  · intro hs
    simp only [simplifyRing]
    by_cases h4 : coords.length < 4
    · rw [if_pos h4]
    · rw [if_neg h4, if_pos hs]
  · intro h4
    simp only [simplifyRing]
    rw [if_neg (by omega)]
    by_cases hs : (simplifyPath coords tolerance).length < 4
    · rw [if_pos hs]
      omega
    · rw [if_neg hs]
      split_ifs
      · rw [List.length_append]
        omega
      · omega

/-- C6 witness: a concrete closed 4-point triangle ring with an arbitrarily
large tolerance (10^6) simplifies below 4 points, so the original ring is
emitted and the output keeps its 4 points. -/
theorem simplifyRing_min_points_witness :
    simplifyRing [((0 : ℚ), (0 : ℚ)), (0, 1), (1, 1), (0, 0)] 1000000 =
        [((0 : ℚ), (0 : ℚ)), (0, 1), (1, 1), (0, 0)] ∧
      4 ≤ (simplifyRing [((0 : ℚ), (0 : ℚ)), (0, 1), (1, 1), (0, 0)] 1000000).length :=
  ⟨(simplifyRing_min_points _ _).1 (by
      norm_num [simplifyPath, simplifyPathFuel, findFarthest, farthestAux,
        perpendicularDistanceSq]),
    (simplifyRing_min_points _ _).2 rfl⟩

/-- C10: for every coordinate list of at least 2 points and every tolerance,
the recursive line simplification keeps the first and last input points;
consequently, for an input ring that is already closed, the re-closing append
of `simplifyRing` never fires (the result is the original ring or the bare
simplified path). -/
theorem simplifyPath_endpoints_invariant (coords : List Point) (tolerance : ℚ)
    (h : 2 ≤ coords.length) :
    (simplifyPath coords tolerance).head? = coords.head? ∧
    (simplifyPath coords tolerance).getLast? = coords.getLast? ∧
    (coords.head? = coords.getLast? →
      simplifyRing coords tolerance = coords ∨
        simplifyRing coords tolerance = simplifyPath coords tolerance) := by
  obtain ⟨hh, hl, _⟩ := simplifyPath_head_last coords tolerance h
  refine ⟨hh, hl, fun hcl => ?_⟩
  rcases simplifyRing_of_closed coords tolerance hcl with he | ⟨_, he⟩
  · exact Or.inl he
  · exact Or.inr he

/-- C10 witness: the theorem applied to a concrete closed 4-point ring at
tolerance 1/2, with the closure hypothesis discharged definitionally. -/
theorem simplifyPath_endpoints_invariant_witness :
    (simplifyPath [((0 : ℚ), (0 : ℚ)), (3, 1), (6, 0), (0, 0)] (1 / 2)).head? =
        ([((0 : ℚ), (0 : ℚ)), (3, 1), (6, 0), (0, 0)] : List Point).head? ∧
      (simplifyRing [((0 : ℚ), (0 : ℚ)), (3, 1), (6, 0), (0, 0)] (1 / 2) =
          [((0 : ℚ), (0 : ℚ)), (3, 1), (6, 0), (0, 0)] ∨
        simplifyRing [((0 : ℚ), (0 : ℚ)), (3, 1), (6, 0), (0, 0)] (1 / 2) =
          simplifyPath [((0 : ℚ), (0 : ℚ)), (3, 1), (6, 0), (0, 0)] (1 / 2)) := by
  have h := simplifyPath_endpoints_invariant
    [((0 : ℚ), (0 : ℚ)), (3, 1), (6, 0), (0, 0)] (1 / 2) (by norm_num)
  exact ⟨h.1, h.2.2 rfl⟩

/- ### wkt-utils: client-side bounding-box workaround module -/

/-- `BoundingBox` from wkt-utils, field order as in the source interface. -/
@[ext]
structure BoundingBox where
  minX : ℚ
  maxX : ℚ
  minY : ℚ
  maxY : ℚ
deriving DecidableEq, Repr

/-- One step of the `reduce` inside `combineBoundingBoxes`. -/
def combinePair (combined box : BoundingBox) : BoundingBox :=
  { minX := min combined.minX box.minX
    maxX := max combined.maxX box.maxX
    minY := min combined.minY box.minY
    maxY := max combined.maxY box.maxY }

/-- `combineBoundingBoxes`: throws on the empty array (modelled as `none`);
otherwise JavaScript `reduce` with no initial value, i.e. a left fold over the
tail seeded with the first box. -/
def combineBoundingBoxes : List BoundingBox → Option BoundingBox
  | [] => none
  | b :: rest => some (rest.foldl combinePair b)

/-- `extractBoundingBoxFromWkt`, modelled over the list of numeric coordinate
pairs that the source's structure-blind regex scan finds in the WKT text, in
text order.  The source seeds the running extremes with ±Infinity and throws
(`none` here) when no pair is found; over ℚ that is the same as seeding with
the first pair and failing on the empty list. -/
def extractBoundingBoxFromWkt : List Point → Option BoundingBox
  | [] => none
  | p :: rest => some (rest.foldl
      (fun acc q =>
        { minX := min acc.minX q.1, maxX := max acc.maxX q.1,
          minY := min acc.minY q.2, maxY := max acc.maxY q.2 })
      { minX := p.1, maxX := p.1, minY := p.2, maxY := p.2 })

/-- The coordinate pairs of the WKT polygon text produced by
`boundingBoxToWkt`, in serialization order:
`POLYGON (( minX minY, maxX minY, maxX maxY, minX maxY, minX minY))`. -/
def boundingBoxToWktCoords (box : BoundingBox) : List Point :=
  [(box.minX, box.minY), (box.maxX, box.minY), (box.maxX, box.maxY),
   (box.minX, box.maxY), (box.minX, box.minY)]

theorem combinePair_comm (a b : BoundingBox) : combinePair a b = combinePair b a := by
  ext <;> simp [combinePair, min_comm, max_comm]

theorem combinePair_assoc (a b c : BoundingBox) :
    combinePair (combinePair a b) c = combinePair a (combinePair b c) := by
  ext <;> simp [combinePair, min_assoc, max_assoc]

theorem combinePair_right_comm (s a b : BoundingBox) :
    combinePair (combinePair s a) b = combinePair (combinePair s b) a := by
  ext <;> simp [combinePair, inf_right_comm, sup_right_comm]

theorem combinePair_self (a : BoundingBox) : combinePair a a = a := by
  ext <;> simp [combinePair]

theorem foldl_combinePair_perm {l₁ l₂ : List BoundingBox} (hp : l₁.Perm l₂) :
    ∀ s, l₁.foldl combinePair s = l₂.foldl combinePair s := by
  induction hp with
  | nil => intro s; rfl
  | cons x _ ih => intro s; simp only [List.foldl_cons]; exact ih _
  | swap x y l => intro s; simp only [List.foldl_cons]; rw [combinePair_right_comm]
  | trans _ _ ih1 ih2 => intro s; rw [ih1 s, ih2 s]

theorem foldl_combinePair_absorb :
    ∀ (l : List BoundingBox) (a s : BoundingBox), a ∈ l →
      l.foldl combinePair (combinePair s a) = l.foldl combinePair s := by
  intro l
  induction l with
  | nil => intro a s h; simp at h
  | cons c cs ih =>
      intro a s h
      simp only [List.foldl_cons]
      rcases List.mem_cons.mp h with he | hm
      · subst he
        rw [combinePair_assoc, combinePair_self]
      · rw [combinePair_right_comm]
        exact ih a (combinePair s c) hm

theorem foldl_combinePair_components (l : List BoundingBox) :
    ∀ b : BoundingBox, l.foldl combinePair b =
      { minX := (l.map BoundingBox.minX).foldl min b.minX
        maxX := (l.map BoundingBox.maxX).foldl max b.maxX
        minY := (l.map BoundingBox.minY).foldl min b.minY
        maxY := (l.map BoundingBox.maxY).foldl max b.maxY } := by
  induction l with
  | nil => intro b; rfl
  | cons c cs ih =>
      intro b
      simp only [List.foldl_cons, List.map_cons]
      rw [ih]
      rfl

theorem combineBoundingBoxes_perm {l₁ l₂ : List BoundingBox} (hp : l₁.Perm l₂) :
    combineBoundingBoxes l₁ = combineBoundingBoxes l₂ := by
  cases l₁ with
  | nil =>
      have h2 : l₂ = [] := List.Perm.eq_nil hp.symm
      rw [h2]
  | cons x xs =>
      cases l₂ with
      | nil => exact absurd (List.Perm.eq_nil hp) (by simp)
      | cons y ys =>
          simp only [combineBoundingBoxes, Option.some.injEq]
          have hx : x ∈ y :: ys := hp.subset (List.mem_cons_self x xs)
          have e1 : xs.foldl combinePair x = (y :: ys).foldl combinePair x := by
            calc xs.foldl combinePair x
                = xs.foldl combinePair (combinePair x x) := by rw [combinePair_self]
              _ = (x :: xs).foldl combinePair x := rfl
              _ = (y :: ys).foldl combinePair x := foldl_combinePair_perm hp x
          rw [e1]
          simp only [List.foldl_cons]
          rcases List.mem_cons.mp hx with he | hm
          · rw [he, combinePair_self]
          · rw [combinePair_comm]
            exact foldl_combinePair_absorb ys x y hm

theorem combineBoundingBoxes_regroup (l₁ l₂ : List BoundingBox) (r : BoundingBox)
    (h : combineBoundingBoxes l₁ = some r) :
    combineBoundingBoxes (r :: l₂) = combineBoundingBoxes (l₁ ++ l₂) := by
  cases l₁ with
  | nil => simp [combineBoundingBoxes] at h
  | cons b bs =>
      simp only [combineBoundingBoxes, Option.some.injEq] at h
      simp only [List.cons_append, combineBoundingBoxes, Option.some.injEq]
      rw [← h, List.foldl_append]

/- ### Claims C7, C8 -/

/-- C7: `combineBoundingBoxes` fails on the empty list; on a non-empty list it
returns the componentwise min/max fold; the result is unchanged under any
permutation of the input list and under regrouping through a prior combine
(in particular combine([a,b,c]) = combine([c,a,b]) = combine([combine([a,b]),c])). -/
theorem combineBoundingBoxes_spec :
    combineBoundingBoxes [] = none ∧
    (∀ (b : BoundingBox) (l : List BoundingBox),
      combineBoundingBoxes (b :: l) = some
        { minX := (l.map BoundingBox.minX).foldl min b.minX
          maxX := (l.map BoundingBox.maxX).foldl max b.maxX
          minY := (l.map BoundingBox.minY).foldl min b.minY
          maxY := (l.map BoundingBox.maxY).foldl max b.maxY }) ∧
    (∀ l₁ l₂ : List BoundingBox, l₁.Perm l₂ →
      combineBoundingBoxes l₁ = combineBoundingBoxes l₂) ∧
    (∀ (l₁ l₂ : List BoundingBox) (r : BoundingBox),
      combineBoundingBoxes l₁ = some r →
      combineBoundingBoxes (r :: l₂) = combineBoundingBoxes (l₁ ++ l₂)) ∧
    (∀ a b c : BoundingBox,
      combineBoundingBoxes [a, b, c] = combineBoundingBoxes [c, a, b] ∧
      combineBoundingBoxes [combinePair a b, c] = combineBoundingBoxes [a, b, c]) := by
  refine ⟨rfl, ?_, ?_, ?_, ?_⟩
  · intro b l
    simp only [combineBoundingBoxes, Option.some.injEq]
    exact foldl_combinePair_components l b
  · intro l₁ l₂ hp
    exact combineBoundingBoxes_perm hp
  · intro l₁ l₂ r h
    exact combineBoundingBoxes_regroup l₁ l₂ r h
  · intro a b c
    constructor
    · refine combineBoundingBoxes_perm ?_
      exact List.Perm.trans (List.Perm.cons a (List.Perm.swap c b []))
        (List.Perm.swap c a [b])
    · exact combineBoundingBoxes_regroup [a, b] [c] (combinePair a b) rfl

/-- C7 witness: permutation invariance and the componentwise fold applied to
concrete boxes. -/
theorem combineBoundingBoxes_spec_witness :
    combineBoundingBoxes [⟨0, 1, 0, 1⟩, ⟨2, 3, 2, 3⟩] =
      combineBoundingBoxes [⟨2, 3, 2, 3⟩, ⟨0, 1, 0, 1⟩] ∧
    combineBoundingBoxes [(⟨0, 1, 0, 1⟩ : BoundingBox)] = some ⟨0, 1, 0, 1⟩ := by
  constructor
  · exact combineBoundingBoxes_spec.2.2.1 _ _ (List.Perm.swap _ _ _)
  · have h := combineBoundingBoxes_spec.2.1 (⟨0, 1, 0, 1⟩ : BoundingBox) []
    simpa using h

/-- C8: serializing the bounding box {minX 10, minY 20, maxX 30, maxY 40} as a
rectangular WKT polygon and re-extracting its bounds is the identity on this
box. -/
theorem extract_boundingBoxToWkt_roundtrip :
    extractBoundingBoxFromWkt (boundingBoxToWktCoords ⟨10, 30, 20, 40⟩) =
      some (⟨10, 30, 20, 40⟩ : BoundingBox) := by
  norm_num [extractBoundingBoxFromWkt, boundingBoxToWktCoords, min_def, max_def]

/- ### coordinates.ts -/

/-- Modelled from the spec: `ValidationError` (lib/errors.ts is not among the
provided sources) — "ValidationError with a field tag identifying which
argument failed", constructed in the sources as
`new ValidationError(message, field)`. -/
structure ValidationError where
  message : String
  field : String
deriving DecidableEq, Repr

/-- `WGS84_BOUNDS` from coordinates.ts. -/
structure Wgs84Bounds where
  minLat : ℚ
  maxLat : ℚ
  minLon : ℚ
  maxLon : ℚ

def WGS84_BOUNDS : Wgs84Bounds :=
  { minLat := 55, maxLat := 69, minLon := 11, maxLon := 24 }

structure Wgs84Point where
  latitude : ℚ
  longitude : ℚ

structure Sweref99Point where
  x : ℚ
  y : ℚ

/-- `isValidWgs84Coordinate` from coordinates.ts. -/
def isValidWgs84Coordinate (latitude longitude : ℚ) : Bool :=
  decide (WGS84_BOUNDS.minLat ≤ latitude) &&
  decide (latitude ≤ WGS84_BOUNDS.maxLat) &&
  decide (WGS84_BOUNDS.minLon ≤ longitude) &&
  decide (longitude ≤ WGS84_BOUNDS.maxLon)

/-- `wgs84ToSweref99` from coordinates.ts.  The actual proj4 forward
projection is an external library call, abstracted as the argument `proj`
(taking `(longitude, latitude)`, returning `(x, y)`); the claims about this
function concern only its validation behaviour, which is independent of
`proj`.  The source interpolates the offending values into the message; the
message is modelled as fixed text, the field tag (`"coordinates"`) exactly. -/
def wgs84ToSweref99 (proj : ℚ × ℚ → ℚ × ℚ) (point : Wgs84Point) :
    Except ValidationError Sweref99Point :=
  if isValidWgs84Coordinate point.latitude point.longitude then
    let result := proj (point.longitude, point.latitude)
    Except.ok { x := result.1, y := result.2 }
  else
    Except.error
      { message := "WGS84 coordinates are outside valid range for Sweden (55-69 N, 11-24 E)"
        field := "coordinates" }

theorem isValidWgs84Coordinate_iff (latitude longitude : ℚ) :
    isValidWgs84Coordinate latitude longitude = true ↔
      (55 ≤ latitude ∧ latitude ≤ 69 ∧ 11 ≤ longitude ∧ longitude ≤ 24) := by
  simp [isValidWgs84Coordinate, WGS84_BOUNDS, and_assoc]

/- ### Claim C5 -/

/-- C5: `toProjected` fails with a ValidationError whose field tag is
`"coordinates"` exactly when the input lies outside the envelope
55 ≤ lat ≤ 69, 11 ≤ lon ≤ 24, whatever the underlying projection function;
in particular it fails at (40, 5) and succeeds at (59.3, 18). -/
theorem wgs84ToSweref99_envelope :
    (∀ (proj : ℚ × ℚ → ℚ × ℚ) (p : Wgs84Point),
      (∃ e, wgs84ToSweref99 proj p = Except.error e ∧ e.field = "coordinates") ↔
        ¬(55 ≤ p.latitude ∧ p.latitude ≤ 69 ∧ 11 ≤ p.longitude ∧ p.longitude ≤ 24)) ∧
    (∀ proj : ℚ × ℚ → ℚ × ℚ,
      (wgs84ToSweref99 proj { latitude := 40, longitude := 5 }).isOk = false) ∧
    (∀ proj : ℚ × ℚ → ℚ × ℚ,
      (wgs84ToSweref99 proj { latitude := 59.3, longitude := 18 }).isOk = true) := by
  refine ⟨?_, ?_, ?_⟩
  · intro proj p
    rw [wgs84ToSweref99]
    split_ifs with hv
    · rw [isValidWgs84Coordinate_iff] at hv
      simp [hv]
    · rw [isValidWgs84Coordinate_iff] at hv
      exact iff_of_true ⟨_, rfl, rfl⟩ hv
  · intro proj
    have hv : isValidWgs84Coordinate (40 : ℚ) (5 : ℚ) = false := by
      rw [Bool.eq_false_iff, Ne, isValidWgs84Coordinate_iff]
      norm_num
    rw [wgs84ToSweref99]
    simp [hv, Except.isOk, Except.toBool]
  · intro proj
    have hv : isValidWgs84Coordinate (59.3 : ℚ) (18 : ℚ) = true := by
      rw [isValidWgs84Coordinate_iff]
      norm_num
    rw [wgs84ToSweref99]
    simp [hv, Except.isOk, Except.toBool]

/-- C5 witness: the theorem applied at the two concrete points named by the
claim, with the identity as projection. -/
theorem wgs84ToSweref99_envelope_witness :
    (∃ e, wgs84ToSweref99 (fun q => q) { latitude := 40, longitude := 5 } =
        Except.error e ∧ e.field = "coordinates") ∧
    (wgs84ToSweref99 (fun q => q) { latitude := 59.3, longitude := 18 }).isOk = true :=
  ⟨(wgs84ToSweref99_envelope.1 (fun q => q) { latitude := 40, longitude := 5 }).mpr
      (by norm_num),
    wgs84ToSweref99_envelope.2.2 (fun q => q)⟩

/- ### nvv_search aggregation (n2000-search.ts) -/

/-- `{source, message}` error entry built for each rejected source. -/
structure SourceError where
  source : String
  message : String
deriving DecidableEq, Repr

/-- The outcome of one settled upstream call (one `Promise.allSettled` entry):
fulfilled with the source's record list, or rejected; the rejection's
`reason?.message ?? 'Unknown error'` is modelled by the carried string. -/
abbrev Settled (α : Type) := Except String (List α)

/-- Result shape of `searchByBbox`. -/
structure BboxSearchResult (α : Type) where
  total_count : Nat
  national_count : Nat
  n2000_count : Nat
  note : String
  errors : List SourceError
  areas : List (String × α)

/-- Result shape of `searchByKommunLan` / the kommun-lan `searchHandler`. -/
structure SearchResult (α : Type) where
  total_count : Nat
  national_count : Nat
  n2000_count : Nat
  ramsar_count : Nat
  errors : List SourceError
  areas : List (String × α)

/-- The aggregation tail of `searchByBbox`, given the two settled WFS
outcomes: each fulfilled source's records are tagged `{source, ...area}` and
pushed in source order (national, then n2000); each rejected source pushes
one `{source, message}` entry; counts come from fulfilled sources only. -/
def aggregateBbox {α : Type} (national n2000 : Settled α) : BboxSearchResult α :=
  let errors0 : List SourceError := []
  let areas0 : List (String × α) := []
  let errors1 := match national with
    | .ok _ => errors0
    | .error m => errors0 ++ [{ source := "national", message := m }]
  let areas1 := match national with
    | .ok v => areas0 ++ v.map (fun a => ("national", a))
    | .error _ => areas0
  let errors2 := match n2000 with
    | .ok _ => errors1
    | .error m => errors1 ++ [{ source := "n2000", message := m }]
  let areas2 := match n2000 with
    | .ok v => areas1 ++ v.map (fun a => ("n2000", a))
    | .error _ => areas1
  let nationalCount := match national with
    | .ok v => v.length
    | .error _ => 0
  let n2000Count := match n2000 with
    | .ok v => v.length
    | .error _ => 0
  { total_count := nationalCount + n2000Count
    national_count := nationalCount
    n2000_count := n2000Count
    note := "Bbox search covers national and Natura 2000 areas. Ramsar (international wetlands) requires kommun/lan codes."
    errors := errors2
    areas := areas2 }

/-- The aggregation tail of `searchByKommunLan` (and of the kommun-lan
`searchHandler`), given the three settled outcomes.  Records are opaque here,
so the renaming of n2000's native `kod` field to the canonical `id` during
tagging is invisible; source order is national, n2000, ramsar. -/
def aggregateKommunLan {α : Type} (national n2000 ramsar : Settled α) :
    SearchResult α :=
  let errors0 : List SourceError := []
  let areas0 : List (String × α) := []
  let errors1 := match national with
    | .ok _ => errors0
    | .error m => errors0 ++ [{ source := "national", message := m }]
  let areas1 := match national with
    | .ok v => areas0 ++ v.map (fun a => ("national", a))
    | .error _ => areas0
  let errors2 := match n2000 with
    | .ok _ => errors1
    | .error m => errors1 ++ [{ source := "n2000", message := m }]
  let areas2 := match n2000 with
    | .ok v => areas1 ++ v.map (fun a => ("n2000", a))
    | .error _ => areas1
  let errors3 := match ramsar with
    | .ok _ => errors2
    | .error m => errors2 ++ [{ source := "ramsar", message := m }]
  let areas3 := match ramsar with
    | .ok v => areas2 ++ v.map (fun a => ("ramsar", a))
    | .error _ => areas2
  let nationalCount := match national with
    | .ok v => v.length
    | .error _ => 0
  let n2000Count := match n2000 with
    | .ok v => v.length
    | .error _ => 0
  let ramsarCount := match ramsar with
    | .ok v => v.length
    | .error _ => 0
  { total_count := nationalCount + n2000Count + ramsarCount
    national_count := nationalCount
    n2000_count := n2000Count
    ramsar_count := ramsarCount
    errors := errors3
    areas := areas3 }

/-- The records a settled source contributes: its list when fulfilled,
nothing when rejected. -/
def okList {α : Type} : Settled α → List α
  | .ok v => v
  | .error _ => []

/-- The error entries a settled source contributes: one `{source, message}`
entry when rejected, none when fulfilled. -/
def errEntry {α : Type} (src : String) : Settled α → List SourceError
  | .ok _ => []
  | .error m => [{ source := src, message := m }]

/-- Tag every record of a list with its source discriminator. -/
def tagWith {α : Type} (src : String) (l : List α) : List (String × α) :=
  l.map (fun a => (src, a))

/- ### Claim C1 -/

/-- C1: for every combination of per-source settled outcomes, both search
aggregation modes return (as a plain value — the aggregate never throws)
every fulfilled source's records tagged with its source discriminator, in
source order; exactly one `{source, message}` error entry per rejected
source; and a `total_count` that sums the record counts of the fulfilled
sources only.  In particular no single source's rejection suppresses another
source's records. -/
theorem aggregate_isolation (α : Type) (national n2000 ramsar : Settled α) :
    ((aggregateBbox national n2000).areas =
        tagWith "national" (okList national) ++ tagWith "n2000" (okList n2000) ∧
      (aggregateBbox national n2000).errors =
        errEntry "national" national ++ errEntry "n2000" n2000 ∧
      (aggregateBbox national n2000).total_count =
        (okList national).length + (okList n2000).length) ∧
    ((aggregateKommunLan national n2000 ramsar).areas =
        tagWith "national" (okList national) ++ tagWith "n2000" (okList n2000) ++
          tagWith "ramsar" (okList ramsar) ∧
      (aggregateKommunLan national n2000 ramsar).errors =
        errEntry "national" national ++ errEntry "n2000" n2000 ++
          errEntry "ramsar" ramsar ∧
      (aggregateKommunLan national n2000 ramsar).total_count =
        (okList national).length + (okList n2000).length +
          (okList ramsar).length) := by
  rcases national with m1 | v1 <;> rcases n2000 with m2 | v2 <;>
    rcases ramsar with m3 | v3 <;>
      simp [aggregateBbox, aggregateKommunLan, okList, errEntry, tagWith]

/- ### nvv_extent (detail.ts) -/

/-- Error taxonomy of a tool handler outcome, following §7 of the spec:
a caller-input validation error, an upstream rejection surfaced by the
handler (modelled from the spec: the `withErrorHandling` envelope of
lib/response.ts is not among the provided sources; single-source upstream
failures propagate to the caller unmodified), or a geometry error thrown by
the workaround module. -/
inductive ToolError
  | validation : String → ToolError
  | upstream : String → ToolError
  | geometry : String → ToolError
deriving DecidableEq, Repr

/-- `Promise.all` over already-settled outcomes: fulfilled with the list of
all values when every entry is fulfilled, otherwise rejected.  When more than
one entry rejects, `Promise.all` rejects with the temporally first rejection;
that nondeterminism is modelled as list order, which is exact whenever at
most one entry rejects. -/
def promiseAll {ε α : Type} : List (Except ε α) → Except ε (List α)
  | [] => .ok []
  | x :: xs =>
    match x with
    | .error e => .error e
    | .ok v =>
      match promiseAll xs with
      | .error e => .error e
      | .ok vs => .ok (v :: vs)

/-- The `extentWkts.map(extractBoundingBoxFromWkt)` step: the JavaScript map
throws out of the handler at the first WKT containing no coordinate pair. -/
def mapExtract : List (List Point) → Option (List BoundingBox)
  | [] => some []
  | w :: ws =>
    match extractBoundingBoxFromWkt w with
    | none => none
    | some b =>
      match mapExtract ws with
      | none => none
      | some bs => some (b :: bs)

/-- Result shape of `nvv_extent`; the returned WKT text is modelled by its
list of coordinate pairs. -/
structure ExtentResult where
  national_ids : List String
  n2000_ids : List String
  ramsar_ids : List String
  total_areas : Nat
  extent : List Point
  coordinate_system : String
deriving Repr

/-- `extentHandler` from detail.ts.  Each upstream extent WKT (a string in
the source) is modelled by the list of coordinate pairs its text contains;
the arguments `natExtent`, `n2000Extent`, `ramsarExtent` are the settled
outcomes the corresponding `getAreasExtent` calls would have, consulted only
when that source's ID list is non-empty (`Promise.all` over the conditionally
pushed per-source promises). -/
def extentHandler (nationalIds n2000Ids ramsarIds : List String)
    (natExtent n2000Extent ramsarExtent : Except String (List Point)) :
    Except ToolError ExtentResult :=
  let totalCount := nationalIds.length + n2000Ids.length + ramsarIds.length
  if totalCount = 0 then
    .error (.validation
      "At least one ID array must be non-empty: nationalIds, n2000Ids, or ramsarIds")
  else if 100 < totalCount then
    .error (.validation "Too many IDs. Maximum 100 total IDs across all sources.")
  else
    let extentPromises :=
      (if 0 < nationalIds.length then [natExtent] else []) ++
      (if 0 < n2000Ids.length then [n2000Extent] else []) ++
      (if 0 < ramsarIds.length then [ramsarExtent] else [])
    match promiseAll extentPromises with
    | .error m => .error (.upstream m)
    | .ok extentWkts =>
      if extentWkts.length = 1 then
        .ok { national_ids := nationalIds, n2000_ids := n2000Ids,
              ramsar_ids := ramsarIds, total_areas := totalCount,
              extent := extentWkts.headI,
              coordinate_system := "EPSG:4326 (WGS84)" }
      else
        match mapExtract extentWkts with
        | none => .error (.geometry "No coordinates found in WKT string")
        | some boundingBoxes =>
          match combineBoundingBoxes boundingBoxes with
          | none => .error (.geometry "Cannot combine empty array of bounding boxes")
          | some combined =>
            .ok { national_ids := nationalIds, n2000_ids := n2000Ids,
                  ramsar_ids := ramsarIds, total_areas := totalCount,
                  extent := boundingBoxToWktCoords combined,
                  coordinate_system := "EPSG:4326 (WGS84)" }

theorem promiseAll_append_error {ε α : Type} :
    ∀ (l₁ l₂ : List (Except ε α)) (e : ε),
      (∀ x ∈ l₁, x.isOk = true) → promiseAll l₂ = .error e →
      promiseAll (l₁ ++ l₂) = .error e := by
  intro l₁
  induction l₁ with
  | nil => intro l₂ e _ h2; simpa using h2
  | cons x xs ih =>
      intro l₂ e hall h2
      have hx := hall x (List.mem_cons_self x xs)
      rcases x with m | v
      · simp [Except.isOk, Except.toBool] at hx
      · simp only [List.cons_append, promiseAll]
        rw [List.append_eq, ih l₂ e (fun y hy => hall y (List.mem_cons_of_mem _ hy)) h2]

/- ### Claim C9 -/

/-- C9: for a multi-source extent request (IDs for more than one source,
within the 100-ID bound), a single source's rejected extent request makes the
whole operation fail with that source's error — no partial result, and no
conversion of the failure into `{source, message}` data entries as the search
aggregation performs.  The three conjuncts cover a rejection of each source
while every other applicable source is fulfilled. -/
theorem extentHandler_multi_source_failure
    (nationalIds n2000Ids ramsarIds : List String)
    (natExtent n2000Extent ramsarExtent : Except String (List Point))
    (hmulti : 2 ≤ (if nationalIds = [] then 0 else 1) +
        (if n2000Ids = [] then 0 else 1) + (if ramsarIds = [] then 0 else 1))
    (hbound : nationalIds.length + n2000Ids.length + ramsarIds.length ≤ 100) :
    (∀ m, nationalIds ≠ [] → natExtent = .error m →
      extentHandler nationalIds n2000Ids ramsarIds natExtent n2000Extent ramsarExtent =
        .error (.upstream m)) ∧
    (∀ m, n2000Ids ≠ [] → n2000Extent = .error m →
      (nationalIds = [] ∨ natExtent.isOk = true) →
      extentHandler nationalIds n2000Ids ramsarIds natExtent n2000Extent ramsarExtent =
        .error (.upstream m)) ∧
    (∀ m, ramsarIds ≠ [] → ramsarExtent = .error m →
      (nationalIds = [] ∨ natExtent.isOk = true) →
      (n2000Ids = [] ∨ n2000Extent.isOk = true) →
      extentHandler nationalIds n2000Ids ramsarIds natExtent n2000Extent ramsarExtent =
        .error (.upstream m)) := by
  refine ⟨?_, ?_, ?_⟩
  · intro m hne herr
    have hl1 : 0 < nationalIds.length := List.length_pos.mpr hne
    have hnk : ¬ (nationalIds.length + n2000Ids.length + ramsarIds.length = 0) := by
      omega
    simp only [extentHandler]
    rw [if_neg hnk, if_neg (by omega)]
    have hpa : promiseAll (((if 0 < nationalIds.length then [natExtent] else []) ++
        (if 0 < n2000Ids.length then [n2000Extent] else [])) ++
          (if 0 < ramsarIds.length then [ramsarExtent] else [])) = .error m := by
      rw [if_pos hl1, herr]
      simp [promiseAll]
    rw [hpa]
  · intro m hne herr h1
    have hl2 : 0 < n2000Ids.length := List.length_pos.mpr hne
    have hnk : ¬ (nationalIds.length + n2000Ids.length + ramsarIds.length = 0) := by
      omega
    simp only [extentHandler]
    rw [if_neg hnk, if_neg (by omega)]
    have hall : ∀ x ∈ (if 0 < nationalIds.length then [natExtent] else []),
        x.isOk = true := by
      intro x hx
      by_cases hn1 : 0 < nationalIds.length
      · rw [if_pos hn1] at hx
        rcases h1 with he | hok
        · rw [he] at hn1
          simp at hn1
        · simp only [List.mem_singleton] at hx
          rw [hx]
          exact hok
      · rw [if_neg hn1] at hx
        simp at hx
    have hpa : promiseAll (((if 0 < nationalIds.length then [natExtent] else []) ++
        (if 0 < n2000Ids.length then [n2000Extent] else [])) ++
          (if 0 < ramsarIds.length then [ramsarExtent] else [])) = .error m := by
      rw [if_pos hl2, herr, List.append_assoc]
      exact promiseAll_append_error _ _ m hall (by simp [promiseAll])
    rw [hpa]
  · intro m hne herr h1 h2
    have hl3 : 0 < ramsarIds.length := List.length_pos.mpr hne
    have hnk : ¬ (nationalIds.length + n2000Ids.length + ramsarIds.length = 0) := by
      omega
    simp only [extentHandler]
    rw [if_neg hnk, if_neg (by omega)]
    have hall : ∀ x ∈ (if 0 < nationalIds.length then [natExtent] else []) ++
        (if 0 < n2000Ids.length then [n2000Extent] else []), x.isOk = true := by
      intro x hx
      rcases List.mem_append.mp hx with hx1 | hx2
      · by_cases hn1 : 0 < nationalIds.length
        · rw [if_pos hn1] at hx1
          rcases h1 with he | hok
          · rw [he] at hn1
            simp at hn1
          · simp only [List.mem_singleton] at hx1
            rw [hx1]
            exact hok
        · rw [if_neg hn1] at hx1
          simp at hx1
      · by_cases hn2 : 0 < n2000Ids.length
        · rw [if_pos hn2] at hx2
          rcases h2 with he | hok
          · rw [he] at hn2
            simp at hn2
          · simp only [List.mem_singleton] at hx2
            rw [hx2]
            exact hok
        · rw [if_neg hn2] at hx2
          simp at hx2
    have hpa : promiseAll (((if 0 < nationalIds.length then [natExtent] else []) ++
        (if 0 < n2000Ids.length then [n2000Extent] else [])) ++
          (if 0 < ramsarIds.length then [ramsarExtent] else [])) = .error m := by
      rw [if_pos hl3, herr]
      exact promiseAll_append_error _ _ m hall (by simp [promiseAll])
    rw [hpa]

/-- C9 witness: national IDs and n2000 IDs present, the national extent
fulfilled and the n2000 extent rejected with "boom" — the whole handler
rejects with that error. -/
theorem extentHandler_multi_source_failure_witness :
    extentHandler ["2000019"] ["SE0110001"] []
        (Except.ok [((1 : ℚ), (2 : ℚ))]) (Except.error "boom") (Except.ok []) =
      Except.error (ToolError.upstream "boom") := by
  have h := extentHandler_multi_source_failure ["2000019"] ["SE0110001"] []
    (Except.ok [((1 : ℚ), (2 : ℚ))]) (Except.error "boom") (Except.ok [])
    (by simp) (by simp)
  exact h.2.1 "boom" (by simp) rfl (Or.inr rfl)

end Nvv
